import Mathlib

/-!
# Verification of the Redaction Round Engine

Shallow embedding of the round engine of this repository
(`src/game/GameScene.ts` and the historical scene variants) and proofs of
the spec's claims about it.

Modelling conventions:
* JavaScript numbers are modelled as rationals (`ℚ`); all the arithmetic the
  engine performs (adds, subtracts, multiplies, divides, floor, ceil,
  `Math.round`, `Math.max`, `Math.min`) is exact on the inputs considered.
* The coverage canvas is modelled as its alpha test: a total function
  `ℤ → ℤ → Bool` (`true` at a pixel iff the alpha channel there is nonzero),
  together with its width and height.  `clearRect(0,0,w,h)` yields the
  constantly-false raster; `ctx.arc` + `fill` is idealized as painting the
  closed disc of the given centre and radius.
* `for (v = a; v < b; v += step)` loops are embedded as iteration over the
  explicit index list `strideSeq a b step`.
* The asynchronous `Image.onload` callback of `loadDocument` is modelled as
  running synchronously (the engine's own logic never observes the gap).
-/

namespace Redaction

/-- `RoundPhase` of `GameScene.ts`. -/
inductive RoundPhase
  | Prompt
  | Redacting
  | Scoring
deriving DecidableEq, Repr

/-- A point (`Point` / `StrokePoint` of the source), coordinates in ℚ. -/
structure Pt where
  x : ℚ
  y : ℚ
deriving DecidableEq, Repr

/-- `MaskRect` from `src/data/types.ts`: normalized 0..1 rect. -/
structure MaskRect where
  x : ℚ
  y : ℚ
  width : ℚ
  height : ℚ
deriving DecidableEq, Repr

/-- `RedactionMask` from `src/data/types.ts`.  The image source is modelled
by the only data of it the engine reads: its natural pixel dimensions. -/
structure RedactionMask where
  prompt : String
  imgWidth : ℕ
  imgHeight : ℕ
  targetRects : List MaskRect
deriving DecidableEq, Repr

/-- `DocumentLayout` of `GameScene.ts`. -/
structure DocumentLayout where
  scale : ℚ
  offsetX : ℚ
  offsetY : ℚ
  drawWidth : ℚ
  drawHeight : ℚ
deriving DecidableEq, Repr

/-- `UIButton` of `GameScene.ts`. -/
structure UIButton where
  x : ℚ
  y : ℚ
  width : ℚ
  height : ℚ
  text : String
deriving DecidableEq, Repr

/-- The index list visited by `for (v = start; v < stop; v += step)`. -/
def strideSeq (start stop : ℤ) (step : ℕ) : List ℤ :=
  (List.range (((stop - start).toNat + step - 1) / step)).map
    (fun k : ℕ => start + (k : ℤ) * (step : ℤ))

/-- `screenToDocument` of `GameScene.ts`. -/
def screenToDocument (layout : DocumentLayout) (p : Pt) : Option Pt :=
  let x := (p.x - layout.offsetX) / layout.drawWidth
  let y := (p.y - layout.offsetY) / layout.drawHeight
  if x < 0 ∨ x > 1 ∨ y < 0 ∨ y > 1 then none else some ⟨x, y⟩

/-- `documentToScreen` of `GameScene.ts`. -/
def documentToScreen (layout : DocumentLayout) (p : Pt) : Pt :=
  ⟨p.x * layout.drawWidth + layout.offsetX, p.y * layout.drawHeight + layout.offsetY⟩

/-- `computeLayout` of `GameScene.ts`: uniform contain-fit of the image in
the container, centered. -/
def computeLayout (containerW containerH : ℚ) (imgW imgH : ℕ) : DocumentLayout :=
  let scale := min (containerW / imgW) (containerH / imgH)
  let drawWidth := imgW * scale
  let drawHeight := imgH * scale
  { scale := scale
    offsetX := (containerW - drawWidth) / 2
    offsetY := (containerH - drawHeight) / 2
    drawWidth := drawWidth
    drawHeight := drawHeight }

/-- The containment test of the painted-pixel pass of
`GameScene.calculateScore`: the sampled raster pixel `(x, y)` lies inside
some target rect (inclusive on all four edges, compared in raster units). -/
def insideAnyRect (rects : List MaskRect) (w h : ℕ) (x y : ℤ) : Bool :=
  rects.any fun r =>
    decide ((r.x * w ≤ (x : ℚ)) ∧ (r.y * h ≤ (y : ℚ)) ∧
      ((x : ℚ) ≤ (r.x + r.width) * w) ∧ ((y : ℚ) ≤ (r.y + r.height) * h))

/-- The `correct` counter of `GameScene.calculateScore`: painted sampled
pixels inside some target rect (outer loop over `y`, inner over `x`). -/
def correctCount (rects : List MaskRect) (w h : ℕ) (cov : ℤ → ℤ → Bool) : ℕ :=
  ((strideSeq 0 h 4).map fun y =>
    (strideSeq 0 w 4).countP fun x => cov x y && insideAnyRect rects w h x y).sum

/-- The `falsePositive` counter of `GameScene.calculateScore`: painted
sampled pixels outside every target rect. -/
def falsePositiveCount (rects : List MaskRect) (w h : ℕ) (cov : ℤ → ℤ → Bool) : ℕ :=
  ((strideSeq 0 h 4).map fun y =>
    (strideSeq 0 w 4).countP fun x => cov x y && !insideAnyRect rects w h x y).sum

/-- One rect's contribution to the `missed` counter of
`GameScene.calculateScore`: unpainted samples of the rect's floor/ceil
pixel range, walked at the same stride. -/
def missedCountRect (r : MaskRect) (w h : ℕ) (cov : ℤ → ℤ → Bool) : ℕ :=
  ((strideSeq ⌊r.y * h⌋ ⌈(r.y + r.height) * h⌉ 4).map fun y =>
    (strideSeq ⌊r.x * w⌋ ⌈(r.x + r.width) * w⌉ 4).countP fun x => !cov x y).sum

/-- The `missed` counter of `GameScene.calculateScore`. -/
def missedCount (rects : List MaskRect) (w h : ℕ) (cov : ℤ → ℤ → Bool) : ℕ :=
  (rects.map fun r => missedCountRect r w h cov).sum

/-- `calculateScore` of `GameScene.ts` (the time-bonus variant):
`correct*20 − falsePositive*1.5 − missed*0.5`, a time bonus of up to 50%
when the phase is already `Scoring`, then `Math.max(0, Math.round(·))`. -/
def calculateScore (phase : RoundPhase) (timer timeLimit : ℚ)
    (rects : List MaskRect) (w h : ℕ) (cov : ℤ → ℤ → Bool) : ℤ :=
  let correct : ℚ := correctCount rects w h cov
  let falsePositive : ℚ := falsePositiveCount rects w h cov
  let missed : ℚ := missedCount rects w h cov
  let roundScore := correct * 20 - falsePositive * (3 / 2) - missed * (1 / 2)
  let roundScore :=
    if phase = RoundPhase.Scoring then
      roundScore + roundScore * (max 0 (timer / timeLimit)) * (1 / 2)
    else roundScore
  max 0 (round roundScore)

/-- Painting one stroke point into the coverage canvas
(`drawCoveragePoint`): a filled disc of radius `markerRadiusNorm * width`
(with `markerRadiusNorm = 0.012`) centred at `(p.x * width, p.y * height)`.
The canvas `arc`+`fill` is idealized as the closed Euclidean disc. -/
def paintDisc (w h : ℕ) (p : Pt) (cov : ℤ → ℤ → Bool) : ℤ → ℤ → Bool :=
  fun x y =>
    cov x y ||
      decide (((x : ℚ) - p.x * w) ^ 2 + ((y : ℚ) - p.y * h) ^ 2 ≤ (3 / 250 * w) ^ 2)

/-- The instance state of `GameScene` (the fields the engine logic reads
and writes; rendering layers are outside the model).  The container
dimensions stand for `docLayer.canvas.getBoundingClientRect()`. -/
structure GState where
  phase : RoundPhase
  timer : ℚ
  timeLimit : ℚ
  roundScore : ℤ
  totalScore : ℤ
  needsRedraw : Bool
  imageLoaded : Bool
  isDrawing : Bool
  containerW : ℚ
  containerH : ℚ
  layout : DocumentLayout
  strokes : List Pt
  masks : List RedactionMask
  currentMaskIndex : ℕ
  mask : RedactionMask
  prompt : String
  coverageW : ℕ
  coverageH : ℕ
  coverage : ℤ → ℤ → Bool
  readyButton : Option UIButton
  doneButton : Option UIButton
  continueButton : Option UIButton
  exitButton : Option UIButton

/-- `pointInRect` of `GameScene.ts`, combined with the truthiness test the
callers perform on the (possibly still unassigned) button field. -/
def hitBtn (p : Pt) (b : Option UIButton) : Bool :=
  match b with
  | none => false
  | some r => decide (r.x ≤ p.x ∧ p.x ≤ r.x + r.width ∧ r.y ≤ p.y ∧ p.y ≤ r.y + r.height)

/-- `calculateScore` read off a scene state. -/
def calcStateScore (s : GState) : ℤ :=
  calculateScore s.phase s.timer s.timeLimit s.mask.targetRects
    s.coverageW s.coverageH s.coverage

/-- `startRedaction` of `GameScene.ts`. -/
def startRedaction (s : GState) : GState :=
  { s with phase := RoundPhase.Redacting, timer := s.timeLimit, strokes := [],
           coverage := fun _ _ => false, needsRedraw := true }

/-- `finishRound` of `GameScene.ts`: sets the phase to Scoring first, so
`calculateScore` sees `phase = Scoring` and applies the time bonus. -/
def finishRound (s : GState) : GState :=
  let s1 := { s with phase := RoundPhase.Scoring }
  let sc := calcStateScore s1
  { s1 with roundScore := sc, totalScore := s1.totalScore + sc, needsRedraw := true }

/-- `loadDocument` of `GameScene.ts` with the `onload` callback run
synchronously: the coverage canvas is resized to the image's natural pixel
dimensions and the layout is recomputed. -/
def loadDocument (m : RedactionMask) (s : GState) : GState :=
  { s with imageLoaded := true,
           coverageW := m.imgWidth, coverageH := m.imgHeight,
           layout := computeLayout s.containerW s.containerH m.imgWidth m.imgHeight,
           needsRedraw := true }

/-- `loadNextMask` of `GameScene.ts`.  (With an empty catalog the source
would store `undefined`; the model keeps the previous mask instead, a case
no claim touches.) -/
def loadNextMask (s : GState) : GState :=
  let idx := if s.masks.length ≤ s.currentMaskIndex then 0 else s.currentMaskIndex
  let m := s.masks.getD idx s.mask
  let s := loadDocument m { s with currentMaskIndex := idx + 1, mask := m, prompt := m.prompt }
  { s with phase := RoundPhase.Prompt, strokes := [],
           coverage := fun _ _ => false, needsRedraw := true }

/-- `exitGame` of `GameScene.ts` (state effects; the `onExit()` call is
counted by `onPointerDown`). -/
def exitGame (s : GState) : GState :=
  { s with roundScore := 0, totalScore := 0, strokes := [],
           phase := RoundPhase.Prompt, coverage := fun _ _ => false,
           needsRedraw := true }

/-- `resetGame` of `GameScene.ts`. -/
def resetGame (s : GState) : GState :=
  loadNextMask { s with roundScore := 0, totalScore := 0, currentMaskIndex := 0,
                        strokes := [], coverage := fun _ _ => false }

/-- `startStroke` of `GameScene.ts`. -/
def startStroke (p : Pt) (s : GState) : GState :=
  match screenToDocument s.layout p with
  | none => s
  | some d =>
      { s with isDrawing := true, strokes := s.strokes ++ [d],
               coverage := paintDisc s.coverageW s.coverageH d s.coverage,
               needsRedraw := true }

/-- `addStroke` of `GameScene.ts`. -/
def addStroke (p : Pt) (s : GState) : GState :=
  match screenToDocument s.layout p with
  | none => s
  | some d =>
      { s with strokes := s.strokes ++ [d],
               coverage := paintDisc s.coverageW s.coverageH d s.coverage,
               needsRedraw := true }

/-- `update(dt)` of `GameScene.ts`. -/
def update (dt : ℚ) (s : GState) : GState :=
  if s.phase = RoundPhase.Redacting then
    let prev := ⌈s.timer⌉
    let s1 := { s with timer := s.timer - dt }
    let s2 := if s1.timer ≤ 0 then finishRound { s1 with timer := 0 } else s1
    if ⌈s2.timer⌉ ≠ prev then { s2 with needsRedraw := true } else s2
  else s

/-- `onPointerDown` of `GameScene.ts`.  The second component counts the
`onExit()` invocations the call performs. -/
def onPointerDown (p : Pt) (s : GState) : GState × ℕ :=
  match s.phase with
  | RoundPhase.Prompt =>
      (if hitBtn p s.readyButton then startRedaction s else s, 0)
  | RoundPhase.Redacting =>
      (if hitBtn p s.doneButton then finishRound s else startStroke p s, 0)
  | RoundPhase.Scoring =>
      if hitBtn p s.continueButton then (loadNextMask s, 0)
      else if hitBtn p s.exitButton then (exitGame s, 1)
      else (s, 0)

/-- `onPointerMove` of `GameScene.ts`. -/
def onPointerMove (p : Pt) (s : GState) : GState :=
  if s.isDrawing && decide (s.phase = RoundPhase.Redacting) then addStroke p s else s

/-- `onPointerUp` of `GameScene.ts`. -/
def onPointerUp (s : GState) : GState :=
  { s with isDrawing := false }

/-! ## GameScene4 (`src/unnamed/part_001`): mask sequencing and reshuffle -/

namespace GameScene4

/-- The destructuring swap `[arr[i], arr[j]] = [arr[j], arr[i]]` of
`shuffleMasks` (identity when either index is out of range, which valid
choices never produce). -/
def listSwap {α : Type _} (l : List α) (i j : ℕ) : List α :=
  match l[i]?, l[j]? with
  | some a, some b => (l.set i b).set j a
  | _, _ => l

/-- The loop of `shuffleMasks`: `for (i = n-1; i > 0; i--)` swapping
index `i` with the drawn index `j ≤ i`; the list `js` holds the successive
draws `Math.floor(Math.random() * (i + 1))`. -/
def fyGo {α : Type _} : List α → ℕ → List ℕ → List α
  | l, 0, _ => l
  | l, _ + 1, [] => l
  | l, i + 1, j :: js => fyGo (listSwap l (i + 1) j) i js

/-- `GameScene4.shuffleMasks`: Fisher–Yates on a copy of the list, driven
by the draw sequence `js`. -/
def shuffleMasks {α : Type _} (l : List α) (js : List ℕ) : List α :=
  fyGo l (l.length - 1) js

/-- The draw sequence `js` is one a run of `shuffleMasks` on a list of
length `n` consumes: one draw per loop iteration, the draw for index `i`
lying in `[0, i]`. -/
def ChoicesLe : ℕ → List ℕ → Prop
  | _, [] => True
  | i, j :: js => j ≤ i ∧ ChoicesLe (i - 1) js

def ValidChoices (n : ℕ) (js : List ℕ) : Prop :=
  js.length = n - 1 ∧ ChoicesLe (n - 1) js

/-- The mask-advance step at the end of `GameScene4.finishRound`:
increment the index; on reaching the end wrap to 0 and reshuffle. -/
def maskAdvance (js : List ℕ) (st : List Redaction.RedactionMask × ℕ) :
    List Redaction.RedactionMask × ℕ :=
  let idx := st.2 + 1
  if st.1.length ≤ idx then (shuffleMasks st.1 js, 0) else (st.1, idx)

/-- The mask `loadCurrentMask` presents in a sequencing state. -/
def presentedMask (st : List Redaction.RedactionMask × ℕ) :
    Option Redaction.RedactionMask :=
  st.1[st.2]?

end GameScene4

/-! ## The event alphabet the host delivers to the scene -/

/-- One call the host can make into the scene. -/
inductive GEvent where
  | update (dt : ℚ)
  | pointerDown (p : Pt)
  | pointerMove (p : Pt)
  | pointerUp
  | reset

/-- Dispatch of one host call; the second component counts `onExit()`
invocations performed during the call. -/
def step : GEvent → GState → GState × ℕ
  | GEvent.update dt, s => (update dt s, 0)
  | GEvent.pointerDown p, s => onPointerDown p s
  | GEvent.pointerMove p, s => (onPointerMove p s, 0)
  | GEvent.pointerUp, s => (onPointerUp s, 0)
  | GEvent.reset, s => (resetGame s, 0)

/-- All recorded stroke points lie in the unit square. -/
def StrokesInBounds (s : GState) : Prop :=
  ∀ q ∈ s.strokes, 0 ≤ q.x ∧ q.x ≤ 1 ∧ 0 ≤ q.y ∧ q.y ≤ 1

/-- A concrete Scoring-phase state for the C8 witness. -/
def exitWitnessState : GState :=
  { phase := RoundPhase.Scoring, timer := 0, timeLimit := 30, roundScore := 5,
    totalScore := 5, needsRedraw := true, imageLoaded := true, isDrawing := false,
    containerW := 800, containerH := 600, layout := ⟨1, 0, 0, 800, 600⟩,
    strokes := [], masks := [], currentMaskIndex := 0,
    mask := ⟨"m", 100, 100, []⟩, prompt := "m", coverageW := 100, coverageH := 100,
    coverage := fun _ _ => false, readyButton := none, doneButton := none,
    continueButton := none, exitButton := some ⟨0, 0, 10, 10, "EXIT"⟩ }

/-- The recording action shared by `startStroke`/`addStroke` once the
screen point has been mapped to a normalized document point: append to
the stroke list and paint the coverage raster (in raster coordinates
derived from the normalized point alone). -/
def recordDocPoint (d : Pt) (s : GState) : GState :=
  { s with strokes := s.strokes ++ [d],
           coverage := paintDisc s.coverageW s.coverageH d s.coverage,
           needsRedraw := true }

/-- Recording a whole sequence of normalized stroke points. -/
def recordDocPoints (ps : List Pt) (s : GState) : GState :=
  ps.foldl (fun s d => recordDocPoint d s) s

/-- Two states for the C9 witness: identical round data, drastically
different layouts and container sizes. -/
def layoutStateA : GState :=
  { phase := RoundPhase.Scoring, timer := 10, timeLimit := 30, roundScore := 0,
    totalScore := 0, needsRedraw := true, imageLoaded := true, isDrawing := false,
    containerW := 800, containerH := 600, layout := ⟨1, 0, 0, 100, 100⟩,
    strokes := [], masks := [], currentMaskIndex := 0,
    mask := ⟨"m", 100, 100, [⟨0, 0, 1/2, 1/2⟩]⟩, prompt := "m",
    coverageW := 100, coverageH := 100, coverage := fun _ _ => false,
    readyButton := none, doneButton := none, continueButton := none,
    exitButton := none }

def layoutStateB : GState :=
  { layoutStateA with containerW := 320, containerH := 200,
                      layout := ⟨1/4, 60, 10, 25, 25⟩ }

/-- A concrete freshly-started Redacting state for the C2 witness. -/
def timerWitnessState : GState :=
  { phase := RoundPhase.Redacting, timer := 30, timeLimit := 30, roundScore := 0,
    totalScore := 0, needsRedraw := true, imageLoaded := true, isDrawing := false,
    containerW := 800, containerH := 600, layout := ⟨1, 0, 0, 800, 600⟩,
    strokes := [], masks := [], currentMaskIndex := 0,
    mask := ⟨"m", 100, 100, []⟩, prompt := "m", coverageW := 100, coverageH := 100,
    coverage := fun _ _ => false, readyButton := none, doneButton := none,
    continueButton := none, exitButton := none }

/-- The host calls on which the session score is zeroed: the `reset` entry
point, and a Scoring-phase pointer-down that hits the exit button but not
the continue button (`exitGame`). -/
def sessionReset (e : GEvent) (s : GState) : Prop :=
  match e with
  | GEvent.reset => True
  | GEvent.pointerDown p =>
      s.phase = RoundPhase.Scoring ∧ hitBtn p s.continueButton = false ∧
        hitBtn p s.exitButton = true
  | _ => False

instance sessionReset.instDecidable (e : GEvent) (s : GState) :
    Decidable (sessionReset e s) := by
  cases e <;> simp only [sessionReset] <;> infer_instance

/-- The host calls on which `finishRound` fires: an update that drives the
timer to or below 0, or a Redacting-phase pointer-down on the done
button. -/
def firesFinish (e : GEvent) (s : GState) : Prop :=
  match e with
  | GEvent.update dt => s.phase = RoundPhase.Redacting ∧ s.timer - dt ≤ 0
  | GEvent.pointerDown p =>
      s.phase = RoundPhase.Redacting ∧ hitBtn p s.doneButton = true
  | _ => False

instance firesFinish.instDecidable (e : GEvent) (s : GState) :
    Decidable (firesFinish e s) := by
  cases e <;> simp only [firesFinish] <;> infer_instance

/-- The score the fired `finishRound` computes: with the timer clamped to
0 on the update path, with the current timer on the done-button path. -/
def finishScore (e : GEvent) (s : GState) : ℤ :=
  match e with
  | GEvent.update _ =>
      calculateScore RoundPhase.Scoring 0 s.timeLimit s.mask.targetRects
        s.coverageW s.coverageH s.coverage
  | _ =>
      calculateScore RoundPhase.Scoring s.timer s.timeLimit s.mask.targetRects
        s.coverageW s.coverageH s.coverage

/-- Run a list of host calls, collecting the round scores completed since
the last session reset. -/
def runCollect : List GEvent → GState → List ℤ → GState × List ℤ
  | [], s, acc => (s, acc)
  | e :: es, s, acc =>
      runCollect es (step e s).1
        (if sessionReset e s then []
         else acc ++ (if firesFinish e s then [finishScore e s] else []))

/-- A concrete about-to-finish state for the C10 witness. -/
def accountWitnessState : GState :=
  { phase := RoundPhase.Redacting, timer := 1, timeLimit := 30, roundScore := 0,
    totalScore := 0, needsRedraw := true, imageLoaded := true, isDrawing := false,
    containerW := 800, containerH := 600, layout := ⟨1, 0, 0, 800, 600⟩,
    strokes := [], masks := [], currentMaskIndex := 0,
    mask := ⟨"m", 8, 8, [⟨0, 0, 1/2, 1/2⟩]⟩, prompt := "m",
    coverageW := 8, coverageH := 8, coverage := fun _ _ => false,
    readyButton := none, doneButton := none, continueButton := none,
    exitButton := none }

/-! ## Lemmas about the sampling stride -/

theorem strideSeq_mem4 {a b v : ℤ} :
    v ∈ strideSeq a b 4 ↔ a ≤ v ∧ v < b ∧ (4 : ℤ) ∣ (v - a) := by
  unfold strideSeq
  simp only [List.mem_map, List.mem_range]
  constructor
  · rintro ⟨m, hm, rfl⟩
    push_cast
    omega
  · rintro ⟨h1, h2, h3⟩
    refine ⟨(v - a).toNat / 4, ?_, ?_⟩ <;> push_cast <;> omega

theorem strideSeq_nodup4 (a b : ℤ) : (strideSeq a b 4).Nodup := by
  unfold strideSeq
  refine List.Nodup.map ?_ (List.nodup_range _)
  intro m m' h
  have : a + (m : ℤ) * ((4 : ℕ) : ℤ) = a + (m' : ℤ) * ((4 : ℕ) : ℤ) := h
  push_cast at this
  omega

theorem strideSeq_toFinset4 (a b : ℤ) :
    (strideSeq a b 4).toFinset =
      (Finset.Ico a b).filter (fun v => (4 : ℤ) ∣ (v - a)) := by
  ext v
  simp only [List.mem_toFinset, strideSeq_mem4, Finset.mem_filter, Finset.mem_Ico]
  tauto

theorem strideSeq_countP4 (a b : ℤ) (p : ℤ → Bool) :
    (strideSeq a b 4).countP p =
      (((Finset.Ico a b).filter (fun v => (4 : ℤ) ∣ (v - a))).filter
        (fun v => p v = true)).card := by
  rw [List.countP_eq_length_filter, ← strideSeq_toFinset4,
    ← List.toFinset_card_of_nodup ((strideSeq_nodup4 a b).filter p),
    List.toFinset_filter]

theorem strideSeq_length4 (a b : ℤ) :
    (strideSeq a b 4).length =
      ((Finset.Ico a b).filter (fun v => (4 : ℤ) ∣ (v - a))).card := by
  rw [← strideSeq_toFinset4, List.toFinset_card_of_nodup (strideSeq_nodup4 a b)]

/-! ## Lemmas about the coordinate mapper -/

theorem screenToDocument_eq_some {layout : DocumentLayout} {p d : Pt}
    (h : screenToDocument layout p = some d) :
    d.x = (p.x - layout.offsetX) / layout.drawWidth ∧
      d.y = (p.y - layout.offsetY) / layout.drawHeight ∧
      0 ≤ d.x ∧ d.x ≤ 1 ∧ 0 ≤ d.y ∧ d.y ≤ 1 := by
  unfold screenToDocument at h
  by_cases hc :
      (p.x - layout.offsetX) / layout.drawWidth < 0 ∨
        (p.x - layout.offsetX) / layout.drawWidth > 1 ∨
        (p.y - layout.offsetY) / layout.drawHeight < 0 ∨
        (p.y - layout.offsetY) / layout.drawHeight > 1
  · simp only [hc, if_true] at h
    exact absurd h (by simp)
  · simp only [hc, if_false] at h
    push_neg at hc
    obtain ⟨h1, h2, h3, h4⟩ := hc
    cases h
    exact ⟨rfl, rfl, h1, h2, h3, h4⟩

/-! ## Transfer of the loop counters to closed sampling sets -/

theorem correctCount_spec (rects : List MaskRect) (w h : ℕ) (cov : ℤ → ℤ → Bool) :
    correctCount rects w h cov =
      Finset.sum ((Finset.Ico (0 : ℤ) h).filter (fun v => (4 : ℤ) ∣ v)) (fun y =>
        (((Finset.Ico (0 : ℤ) w).filter (fun v => (4 : ℤ) ∣ v)).filter
          (fun x => cov x y = true ∧ insideAnyRect rects w h x y = true)).card) := by
  unfold correctCount
  rw [← List.sum_toFinset _ (strideSeq_nodup4 0 h), strideSeq_toFinset4]
  refine Finset.sum_congr (by simp) ?_
  intro y _
  rw [strideSeq_countP4]
  have : ((Finset.Ico (0 : ℤ) w).filter (fun v => (4 : ℤ) ∣ (v - 0))) =
      ((Finset.Ico (0 : ℤ) w).filter (fun v => (4 : ℤ) ∣ v)) := by simp
  rw [this]
  congr 1
  ext x
  simp [Bool.and_eq_true]

theorem falsePositiveCount_spec (rects : List MaskRect) (w h : ℕ)
    (cov : ℤ → ℤ → Bool) :
    falsePositiveCount rects w h cov =
      Finset.sum ((Finset.Ico (0 : ℤ) h).filter (fun v => (4 : ℤ) ∣ v)) (fun y =>
        (((Finset.Ico (0 : ℤ) w).filter (fun v => (4 : ℤ) ∣ v)).filter
          (fun x => cov x y = true ∧ ¬insideAnyRect rects w h x y = true)).card) := by
  unfold falsePositiveCount
  rw [← List.sum_toFinset _ (strideSeq_nodup4 0 h), strideSeq_toFinset4]
  refine Finset.sum_congr (by simp) ?_
  intro y _
  rw [strideSeq_countP4]
  have : ((Finset.Ico (0 : ℤ) w).filter (fun v => (4 : ℤ) ∣ (v - 0))) =
      ((Finset.Ico (0 : ℤ) w).filter (fun v => (4 : ℤ) ∣ v)) := by simp
  rw [this]
  congr 1
  ext x
  simp [Bool.and_eq_true]

theorem missedCountRect_spec (r : MaskRect) (w h : ℕ) (cov : ℤ → ℤ → Bool) :
    missedCountRect r w h cov =
      Finset.sum
        ((Finset.Ico ⌊r.y * h⌋ ⌈(r.y + r.height) * h⌉).filter
          (fun v => (4 : ℤ) ∣ (v - ⌊r.y * h⌋))) (fun y =>
        (((Finset.Ico ⌊r.x * w⌋ ⌈(r.x + r.width) * w⌉).filter
          (fun v => (4 : ℤ) ∣ (v - ⌊r.x * w⌋))).filter
          (fun x => ¬cov x y = true)).card) := by
  unfold missedCountRect
  rw [← List.sum_toFinset _ (strideSeq_nodup4 _ _), strideSeq_toFinset4]
  refine Finset.sum_congr rfl ?_
  intro y _
  rw [strideSeq_countP4]
  congr 1
  ext x
  simp

theorem missedCount_spec (rects : List MaskRect) (w h : ℕ) (cov : ℤ → ℤ → Bool) :
    missedCount rects w h cov =
      (rects.map fun r =>
        Finset.sum
          ((Finset.Ico ⌊r.y * (h : ℚ)⌋ ⌈(r.y + r.height) * (h : ℚ)⌉).filter
            (fun v => (4 : ℤ) ∣ (v - ⌊r.y * (h : ℚ)⌋))) (fun y =>
          (((Finset.Ico ⌊r.x * (w : ℚ)⌋ ⌈(r.x + r.width) * (w : ℚ)⌉).filter
            (fun v => (4 : ℤ) ∣ (v - ⌊r.x * (w : ℚ)⌋))).filter
            (fun x => ¬cov x y = true)).card)).sum := by
  unfold missedCount
  simp only [missedCountRect_spec]

/-- `Math.max(0, Math.round(x))` and `Math.round(Math.max(0, x))` agree:
the spec's "clamped to a minimum of 0 and rounded" is order-insensitive. -/
theorem max_zero_round_comm (x : ℚ) : max 0 (round x) = round (max 0 x) := by
  rcases le_total x 0 with hx | hx
  · have h1 : round x ≤ 0 := by
      rw [round_eq]
      have h2 : ⌊x + 1 / 2⌋ ≤ ⌊(0 : ℚ) + 1 / 2⌋ := Int.floor_le_floor (by linarith)
      have h3 : ⌊(0 : ℚ) + 1 / 2⌋ = 0 := by norm_num [Int.floor_eq_zero_iff]
      omega
    rw [max_eq_left h1, max_eq_left hx, round_zero]
  · have h1 : 0 ≤ round x := by
      rw [round_eq]
      have h2 : ⌊(0 : ℚ) + 1 / 2⌋ ≤ ⌊x + 1 / 2⌋ := Int.floor_le_floor (by linarith)
      have h3 : ⌊(0 : ℚ) + 1 / 2⌋ = 0 := by norm_num [Int.floor_eq_zero_iff]
      omega
    rw [max_eq_right h1, max_eq_right hx]


/-! ## C1: the time-bonus scoring formula -/

/-- C1.  The time-bonus `calculateScore` equals
`correct*20 − falsePositive*1.5 − missed*0.5` over the stride-4 samples
(multiples of 4 below the raster dimensions; per-rect floor/ceil ranges at
the same stride for `missed`), plus a bonus of that subtotal times
`timer/timeLimit` times `0.5`; the result is clamped to a minimum of 0 and
rounded to the nearest integer (in either order), and the bonus vanishes
at `timer = 0`. -/
theorem calculateScore_time_bonus_spec (rects : List MaskRect) (w h : ℕ)
    (cov : ℤ → ℤ → Bool) (timer tl : ℚ) (ht : 0 ≤ timer) (hl : 0 < tl) :
    (calculateScore RoundPhase.Scoring timer tl rects w h cov =
      max 0 (round
        (((correctCount rects w h cov : ℚ) * 20 -
            (falsePositiveCount rects w h cov : ℚ) * 1.5 -
            (missedCount rects w h cov : ℚ) * 0.5) +
          ((correctCount rects w h cov : ℚ) * 20 -
            (falsePositiveCount rects w h cov : ℚ) * 1.5 -
            (missedCount rects w h cov : ℚ) * 0.5) * (timer / tl) * 0.5))) ∧
    (max 0 (round
        (((correctCount rects w h cov : ℚ) * 20 -
            (falsePositiveCount rects w h cov : ℚ) * 1.5 -
            (missedCount rects w h cov : ℚ) * 0.5) +
          ((correctCount rects w h cov : ℚ) * 20 -
            (falsePositiveCount rects w h cov : ℚ) * 1.5 -
            (missedCount rects w h cov : ℚ) * 0.5) * (timer / tl) * 0.5)) =
      round (max 0
        (((correctCount rects w h cov : ℚ) * 20 -
            (falsePositiveCount rects w h cov : ℚ) * 1.5 -
            (missedCount rects w h cov : ℚ) * 0.5) +
          ((correctCount rects w h cov : ℚ) * 20 -
            (falsePositiveCount rects w h cov : ℚ) * 1.5 -
            (missedCount rects w h cov : ℚ) * 0.5) * (timer / tl) * 0.5))) ∧
    (calculateScore RoundPhase.Scoring 0 tl rects w h cov =
      max 0 (round
        ((correctCount rects w h cov : ℚ) * 20 -
          (falsePositiveCount rects w h cov : ℚ) * 1.5 -
          (missedCount rects w h cov : ℚ) * 0.5))) := by
  refine ⟨?_, max_zero_round_comm _, ?_⟩
  · simp only [calculateScore, if_pos rfl]
    rw [max_eq_right (div_nonneg ht hl.le)]
    norm_num
  · simp only [calculateScore, if_pos rfl]
    rw [zero_div, max_self, mul_zero, zero_mul, add_zero]
    norm_num

/-- Witness for C1 at a concrete raster, rect list and clock. -/
theorem calculateScore_time_bonus_spec_witness :
    (0 : ℚ) ≤ 15 ∧ (0 : ℚ) < 30 ∧
      (calculateScore RoundPhase.Scoring 15 30 [⟨0, 0, 1/2, 1/2⟩] 8 8
          (fun x y => decide (x = 0 ∧ y = 0)) =
        max 0 (round
          (((correctCount [⟨0, 0, 1/2, 1/2⟩] 8 8
                (fun x y => decide (x = 0 ∧ y = 0)) : ℚ) * 20 -
              (falsePositiveCount [⟨0, 0, 1/2, 1/2⟩] 8 8
                (fun x y => decide (x = 0 ∧ y = 0)) : ℚ) * 1.5 -
              (missedCount [⟨0, 0, 1/2, 1/2⟩] 8 8
                (fun x y => decide (x = 0 ∧ y = 0)) : ℚ) * 0.5) +
            ((correctCount [⟨0, 0, 1/2, 1/2⟩] 8 8
                (fun x y => decide (x = 0 ∧ y = 0)) : ℚ) * 20 -
              (falsePositiveCount [⟨0, 0, 1/2, 1/2⟩] 8 8
                (fun x y => decide (x = 0 ∧ y = 0)) : ℚ) * 1.5 -
              (missedCount [⟨0, 0, 1/2, 1/2⟩] 8 8
                (fun x y => decide (x = 0 ∧ y = 0)) : ℚ) * 0.5) *
              ((15 : ℚ) / 30) * 0.5))) :=
  ⟨by norm_num, by norm_num,
    (calculateScore_time_bonus_spec [⟨0, 0, 1/2, 1/2⟩] 8 8
      (fun x y => decide (x = 0 ∧ y = 0)) 15 30 (by norm_num) (by norm_num)).1⟩

/-! ## C5: round trip of the coordinate mapper -/

/-- C5.  For positive draw dimensions, mapping a screen point into the
document and back is the identity (exactly, in the ℚ model). -/
theorem documentToScreen_roundtrip (layout : DocumentLayout) (p d : Pt)
    (hw : 0 < layout.drawWidth) (hh : 0 < layout.drawHeight)
    (h : screenToDocument layout p = some d) :
    documentToScreen layout d = p := by
  obtain ⟨hx, hy, -⟩ := screenToDocument_eq_some h
  unfold documentToScreen
  cases p with
  | mk px py =>
      simp only [hx, hy]
      congr 1 <;> field_simp

/-- Witness for C5: layout `{scale 1, offsets (10, 20), draw 100×50}`,
screen point `(60, 45)`. -/
theorem documentToScreen_roundtrip_witness :
    (0 : ℚ) < 100 ∧ (0 : ℚ) < 50 ∧
      screenToDocument ⟨1, 10, 20, 100, 50⟩ ⟨60, 45⟩ = some ⟨1/2, 1/2⟩ ∧
      documentToScreen ⟨1, 10, 20, 100, 50⟩ ⟨1/2, 1/2⟩ = ⟨60, 45⟩ :=
  ⟨by norm_num, by norm_num, by norm_num [screenToDocument],
    documentToScreen_roundtrip ⟨1, 10, 20, 100, 50⟩ ⟨60, 45⟩ ⟨1/2, 1/2⟩
      (by norm_num) (by norm_num) (by norm_num [screenToDocument])⟩

/-! ## C4: out-of-bounds input is discarded -/

theorem startStroke_inbounds {p : Pt} {s : GState} (h : StrokesInBounds s) :
    StrokesInBounds (startStroke p s) := by
  unfold startStroke
  split
  · exact h
  · next d hd =>
      intro q hq
      simp only [List.mem_append, List.mem_singleton] at hq
      rcases hq with hq | rfl
      · exact h q hq
      · obtain ⟨-, -, h1, h2, h3, h4⟩ := screenToDocument_eq_some hd
        exact ⟨h1, h2, h3, h4⟩

theorem addStroke_inbounds {p : Pt} {s : GState} (h : StrokesInBounds s) :
    StrokesInBounds (addStroke p s) := by
  unfold addStroke
  split
  · exact h
  · next d hd =>
      intro q hq
      simp only [List.mem_append, List.mem_singleton] at hq
      rcases hq with hq | rfl
      · exact h q hq
      · obtain ⟨-, -, h1, h2, h3, h4⟩ := screenToDocument_eq_some hd
        exact ⟨h1, h2, h3, h4⟩

theorem update_strokes (dt : ℚ) (s : GState) : (update dt s).strokes = s.strokes := by
  simp only [update, finishRound, calcStateScore]
  repeat' split
  all_goals rfl

/-- C4.  `screenToDocument` returns exactly
`((p.x − offsetX)/drawWidth, (p.y − offsetY)/drawHeight)` when both
coordinates land in `[0,1]`, returns `none` when either falls outside, and
consequently every host call preserves the invariant that all recorded
stroke points lie in `[0,1]²`. -/
theorem screenToDocument_bounds_spec :
    (∀ (layout : DocumentLayout) (p : Pt),
        0 < layout.drawWidth → 0 < layout.drawHeight →
        (0 ≤ (p.x - layout.offsetX) / layout.drawWidth ∧
            (p.x - layout.offsetX) / layout.drawWidth ≤ 1 ∧
            0 ≤ (p.y - layout.offsetY) / layout.drawHeight ∧
            (p.y - layout.offsetY) / layout.drawHeight ≤ 1 →
          screenToDocument layout p =
            some ⟨(p.x - layout.offsetX) / layout.drawWidth,
              (p.y - layout.offsetY) / layout.drawHeight⟩) ∧
        ((p.x - layout.offsetX) / layout.drawWidth < 0 ∨
            1 < (p.x - layout.offsetX) / layout.drawWidth ∨
            (p.y - layout.offsetY) / layout.drawHeight < 0 ∨
            1 < (p.y - layout.offsetY) / layout.drawHeight →
          screenToDocument layout p = none)) ∧
    (∀ (e : GEvent) (s : GState),
        0 < s.layout.drawWidth → 0 < s.layout.drawHeight →
        StrokesInBounds s → StrokesInBounds (step e s).1) := by
  constructor
  · intro layout p _ _
    constructor
    · rintro ⟨h1, h2, h3, h4⟩
      unfold screenToDocument
      rw [if_neg]
      rintro (hc | hc | hc | hc) <;> linarith
    · intro hc
      unfold screenToDocument
      rw [if_pos]
      rcases hc with hc | hc | hc | hc
      · exact Or.inl hc
      · exact Or.inr (Or.inl hc)
      · exact Or.inr (Or.inr (Or.inl hc))
      · exact Or.inr (Or.inr (Or.inr hc))
  · intro e s _ _ hinv
    cases e with
    | update dt =>
        intro q hq
        exact hinv q ((update_strokes dt s) ▸ hq)
    | pointerDown p =>
        show StrokesInBounds (onPointerDown p s).1
        unfold onPointerDown
        cases s.phase with
        | Prompt =>
            by_cases hb : hitBtn p s.readyButton = true
            · simp only [hb, if_true]
              intro q hq
              exact absurd hq (by simp [startRedaction])
            · simp only [eq_false_of_ne_true hb, if_false]
              exact hinv
        | Redacting =>
            by_cases hb : hitBtn p s.doneButton = true
            · simp only [hb, if_true]
              exact hinv
            · simp only [eq_false_of_ne_true hb, if_false]
              exact startStroke_inbounds hinv
        | Scoring =>
            by_cases hb : hitBtn p s.continueButton = true
            · simp only [hb, if_true]
              intro q hq
              exact absurd hq (by simp [loadNextMask, loadDocument])
            · simp only [eq_false_of_ne_true hb, if_false]
              by_cases he : hitBtn p s.exitButton = true
              · simp only [he, if_true]
                intro q hq
                exact absurd hq (by simp [exitGame])
              · simp only [eq_false_of_ne_true he, if_false]
                exact hinv
    | pointerMove p =>
        show StrokesInBounds (onPointerMove p s)
        unfold onPointerMove
        split
        · exact addStroke_inbounds hinv
        · exact hinv
    | pointerUp => exact hinv
    | reset =>
        show StrokesInBounds (resetGame s)
        intro q hq
        exact absurd hq (by simp [resetGame, loadNextMask, loadDocument])

/-- Witness for C4 at a concrete layout and in-bounds point. -/
theorem screenToDocument_bounds_spec_witness :
    (0 : ℚ) < 100 ∧
      ((0 : ℚ) ≤ (50 - 0) / 100 ∧ ((50 : ℚ) - 0) / 100 ≤ 1) ∧
      screenToDocument ⟨1, 0, 0, 100, 100⟩ ⟨50, 50⟩ =
        some ⟨(50 - 0) / 100, (50 - 0) / 100⟩ :=
  ⟨by norm_num, by norm_num,
    (screenToDocument_bounds_spec.1 ⟨1, 0, 0, 100, 100⟩ ⟨50, 50⟩
        (by norm_num) (by norm_num)).1 (by norm_num)⟩

/-! ## C3: zero-area target rects in the missed-count loop -/

theorem strideSeq_empty_of_le {a b : ℤ} (h : b ≤ a) (k : ℕ) :
    strideSeq a b k = [] := by
  unfold strideSeq
  have h0 : (b - a).toNat = 0 := by omega
  rw [h0]
  cases k with
  | zero => rfl
  | succ k' =>
      rw [Nat.div_eq_of_lt (by omega)]
      rfl

/-- Counterexample to C3 as stated: the zero-area rect
`{x: 1/200, y: 1/200, width: 0, height: 0}` on a 100×100 raster has
`floor(0.5) = 0 < 1 = ceil(0.5)` on both axes, so its "empty" pixel range
contains the sample `(0,0)` and it contributes 1 to `missed` on a cleared
raster. -/
theorem missedCountRect_zero_area_cex :
    (⟨1/200, 1/200, 0, 0⟩ : MaskRect).width = 0 ∧
      (⟨1/200, 1/200, 0, 0⟩ : MaskRect).height = 0 ∧
      missedCountRect ⟨1/200, 1/200, 0, 0⟩ 100 100 (fun _ _ => false) = 1 := by
  refine ⟨rfl, rfl, ?_⟩
  have hf : ⌊(1/200 : ℚ) * ((100 : ℕ) : ℚ)⌋ = 0 := by
    rw [Int.floor_eq_zero_iff]
    constructor <;> norm_num
  have hc : ⌈((1/200 : ℚ) + 0) * ((100 : ℕ) : ℚ)⌉ = 1 := by
    rw [Int.ceil_eq_iff]
    constructor <;> norm_num
  show ((strideSeq ⌊(1/200 : ℚ) * ((100 : ℕ) : ℚ)⌋
      ⌈((1/200 : ℚ) + 0) * ((100 : ℕ) : ℚ)⌉ 4).map fun y =>
    (strideSeq ⌊(1/200 : ℚ) * ((100 : ℕ) : ℚ)⌋
      ⌈((1/200 : ℚ) + 0) * ((100 : ℕ) : ℚ)⌉ 4).countP fun x =>
        !(fun (_ _ : ℤ) => false) x y).sum = 1
  rw [hf, hc]
  decide

/-- C3 amended: a zero-area target rect contributes zero to the missed
count when the collapsed axis lands on an integer raster coordinate
(`r.x * w` integral for `width = 0`, `r.y * h` integral for `height = 0`),
since then `floor = ceil` makes the loop range genuinely empty; and no
division is performed in any case. -/
theorem missedCountRect_zero_area_aligned (r : MaskRect) (w h : ℕ)
    (cov : ℤ → ℤ → Bool)
    (hal : (r.width = 0 ∧ ∃ n : ℤ, r.x * (w : ℚ) = n) ∨
      (r.height = 0 ∧ ∃ n : ℤ, r.y * (h : ℚ) = n)) :
    missedCountRect r w h cov = 0 := by
  rcases hal with ⟨hw, n, hn⟩ | ⟨hh, n, hn⟩
  · have hf : ⌊r.x * (w : ℚ)⌋ = n := by rw [hn]; exact Int.floor_intCast n
    have hc : ⌈(r.x + r.width) * (w : ℚ)⌉ = n := by
      rw [hw, add_zero, hn]; exact Int.ceil_intCast n
    unfold missedCountRect
    rw [hf, hc, strideSeq_empty_of_le (le_refl n)]
    simp
  · have hf : ⌊r.y * (h : ℚ)⌋ = n := by rw [hn]; exact Int.floor_intCast n
    have hc : ⌈(r.y + r.height) * (h : ℚ)⌉ = n := by
      rw [hh, add_zero, hn]; exact Int.ceil_intCast n
    unfold missedCountRect
    rw [hf, hc, strideSeq_empty_of_le (le_refl n)]
    simp

/-- Witness for the amended C3: zero-area rect at `(0.1, 0.1)` on a
100×100 raster (`0.1 * 100 = 10` is integral) contributes zero misses. -/
theorem missedCountRect_zero_area_aligned_witness :
    ((⟨1/10, 1/10, 0, 0⟩ : MaskRect).width = 0 ∧
        (1/10 : ℚ) * ((100 : ℕ) : ℚ) = ((10 : ℤ) : ℚ)) ∧
      missedCountRect ⟨1/10, 1/10, 0, 0⟩ 100 100 (fun _ _ => false) = 0 :=
  ⟨⟨rfl, by norm_num⟩,
    missedCountRect_zero_area_aligned ⟨1/10, 1/10, 0, 0⟩ 100 100
      (fun _ _ => false) (Or.inl ⟨rfl, ⟨10, by norm_num⟩⟩)⟩

/-! ## C6: scoring a cleared raster -/

/-- C6.  On a raster with every sampled alpha 0, the painted pass counts
`correct = falsePositive = 0`, and `missed` is the total number of
stride-4 samples of the rects' floor/ceil pixel ranges, summed per rect
(y-samples × x-samples for each rect). -/
theorem empty_raster_score (rects : List MaskRect) (w h : ℕ) :
    correctCount rects w h (fun _ _ => false) = 0 ∧
      falsePositiveCount rects w h (fun _ _ => false) = 0 ∧
      missedCount rects w h (fun _ _ => false) =
        (rects.map fun r =>
          ((Finset.Ico ⌊r.y * (h : ℚ)⌋ ⌈(r.y + r.height) * (h : ℚ)⌉).filter
            (fun v => (4 : ℤ) ∣ (v - ⌊r.y * (h : ℚ)⌋))).card *
          ((Finset.Ico ⌊r.x * (w : ℚ)⌋ ⌈(r.x + r.width) * (w : ℚ)⌉).filter
            (fun v => (4 : ℤ) ∣ (v - ⌊r.x * (w : ℚ)⌋))).card).sum := by
  refine ⟨?_, ?_, ?_⟩
  · simp [correctCount]
  · simp [falsePositiveCount]
  · have hrect : ∀ r : MaskRect,
        missedCountRect r w h (fun _ _ => false) =
          ((Finset.Ico ⌊r.y * (h : ℚ)⌋ ⌈(r.y + r.height) * (h : ℚ)⌉).filter
            (fun v => (4 : ℤ) ∣ (v - ⌊r.y * (h : ℚ)⌋))).card *
          ((Finset.Ico ⌊r.x * (w : ℚ)⌋ ⌈(r.x + r.width) * (w : ℚ)⌉).filter
            (fun v => (4 : ℤ) ∣ (v - ⌊r.x * (w : ℚ)⌋))).card := by
      intro r
      unfold missedCountRect
      rw [← strideSeq_length4, ← strideSeq_length4]
      simp [List.map_const', List.sum_replicate, smul_eq_mul]
    simp only [missedCount, hrect]

/-! ## C8: exit from the Scoring phase -/

/-- C8.  A pointer-down in the Scoring phase that hits the exit button
(and not the continue button, which is tested first) runs `exitGame`:
`totalScore` and `roundScore` become 0, the stroke list and the coverage
raster are cleared, the phase returns to `Prompt`, and `onExit` is
invoked exactly once. -/
theorem exit_from_scoring_spec (s : GState) (p : Pt)
    (hph : s.phase = RoundPhase.Scoring)
    (hexit : hitBtn p s.exitButton = true)
    (hcont : hitBtn p s.continueButton = false) :
    onPointerDown p s = (exitGame s, 1) ∧
      (exitGame s).totalScore = 0 ∧
      (exitGame s).roundScore = 0 ∧
      (exitGame s).strokes = [] ∧
      (exitGame s).coverage = (fun _ _ => false) ∧
      (exitGame s).phase = RoundPhase.Prompt := by
  refine ⟨?_, rfl, rfl, rfl, rfl, rfl⟩
  unfold onPointerDown
  rw [hph]
  simp [hcont, hexit]

/-- Witness for C8 at a concrete state and pointer position. -/
theorem exit_from_scoring_spec_witness :
    (exitWitnessState.phase = RoundPhase.Scoring ∧
        hitBtn ⟨5, 5⟩ exitWitnessState.exitButton = true ∧
        hitBtn ⟨5, 5⟩ exitWitnessState.continueButton = false) ∧
      onPointerDown ⟨5, 5⟩ exitWitnessState = (exitGame exitWitnessState, 1) ∧
      (exitGame exitWitnessState).totalScore = 0 :=
  ⟨⟨rfl, by simp [hitBtn, exitWitnessState]; norm_num, rfl⟩,
    (exit_from_scoring_spec exitWitnessState ⟨5, 5⟩ rfl
        (by simp [hitBtn, exitWitnessState]; norm_num) rfl).1,
    (exit_from_scoring_spec exitWitnessState ⟨5, 5⟩ rfl
        (by simp [hitBtn, exitWitnessState]; norm_num) rfl).2.1⟩

/-! ## C9: the score does not depend on the screen layout -/

/-- C9.  (i) After `loadNextMask`, the coverage raster has exactly the
document image's natural pixel dimensions.  (ii) `addStroke` records the
mapped normalized point through `recordDocPoint`, which never reads the
layout.  (iii) Hence two states that agree on mask, raster dimensions,
raster contents, timer, time limit and phase — but carry arbitrary,
possibly different layouts and container sizes — yield the same
`calculateScore` after recording the same normalized stroke points. -/
theorem score_layout_independent :
    (∀ s : GState, (loadNextMask s).coverageW = (loadNextMask s).mask.imgWidth ∧
        (loadNextMask s).coverageH = (loadNextMask s).mask.imgHeight) ∧
    (∀ (p : Pt) (s : GState) (d : Pt), screenToDocument s.layout p = some d →
        addStroke p s = recordDocPoint d s) ∧
    (∀ (s₁ s₂ : GState) (ps : List Pt),
        s₁.mask = s₂.mask → s₁.coverageW = s₂.coverageW →
        s₁.coverageH = s₂.coverageH → s₁.coverage = s₂.coverage →
        s₁.timer = s₂.timer → s₁.timeLimit = s₂.timeLimit →
        s₁.phase = s₂.phase →
        calcStateScore (recordDocPoints ps s₁) =
          calcStateScore (recordDocPoints ps s₂)) := by
  refine ⟨fun s => ⟨rfl, rfl⟩, ?_, ?_⟩
  · intro p s d hd
    unfold addStroke
    rw [hd]
    rfl
  · intro s₁ s₂ ps
    induction ps generalizing s₁ s₂ with
    | nil =>
        intro hmask hw hh hcov ht htl hph
        unfold recordDocPoints calcStateScore
        simp only [List.foldl_nil]
        rw [hmask, hw, hh, hcov, ht, htl, hph]
    | cons d ps ih =>
        intro hmask hw hh hcov ht htl hph
        show calcStateScore (recordDocPoints ps (recordDocPoint d s₁)) =
          calcStateScore (recordDocPoints ps (recordDocPoint d s₂))
        apply ih
        · exact hmask
        · exact hw
        · exact hh
        · show paintDisc s₁.coverageW s₁.coverageH d s₁.coverage =
            paintDisc s₂.coverageW s₂.coverageH d s₂.coverage
          rw [hw, hh, hcov]
        · exact ht
        · exact htl
        · exact hph

/-- Witness for C9: the same two normalized stroke points scored under
the two layouts. -/
theorem score_layout_independent_witness :
    (layoutStateA.mask = layoutStateB.mask ∧
        layoutStateA.coverage = layoutStateB.coverage ∧
        layoutStateA.layout ≠ layoutStateB.layout) ∧
      calcStateScore (recordDocPoints [⟨1/4, 1/4⟩, ⟨1/2, 1/2⟩] layoutStateA) =
        calcStateScore (recordDocPoints [⟨1/4, 1/4⟩, ⟨1/2, 1/2⟩] layoutStateB) :=
  ⟨⟨rfl, rfl, by simp [layoutStateA, layoutStateB]⟩,
    score_layout_independent.2.2 layoutStateA layoutStateB
      [⟨1/4, 1/4⟩, ⟨1/2, 1/2⟩] rfl rfl rfl rfl rfl rfl rfl⟩

/-! ## C2: the timer reaches zero and fires the transition exactly once -/

theorem update_of_not_redacting (dt : ℚ) (t : GState)
    (h : t.phase ≠ RoundPhase.Redacting) : update dt t = t := by
  unfold update
  rw [if_neg h]

theorem update_one_tick (t : GState) (hph : t.phase = RoundPhase.Redacting)
    (hpos : 0 < t.timer - 1) (hne : ⌈t.timer - 1⌉ ≠ ⌈t.timer⌉) :
    update 1 t = { t with timer := t.timer - 1, needsRedraw := true } := by
  have hc1 : ¬(t.timer - 1 ≤ 0) := not_le.mpr hpos
  simp only [update, hph, if_true, reduceIte]
  rw [if_neg hc1]
  dsimp only
  rw [if_pos hne]

theorem update_finish (dt : ℚ) (t : GState) (hph : t.phase = RoundPhase.Redacting)
    (hle : t.timer - dt ≤ 0) :
    update dt t =
      { t with phase := RoundPhase.Scoring, timer := 0,
               roundScore := calculateScore RoundPhase.Scoring 0 t.timeLimit
                 t.mask.targetRects t.coverageW t.coverageH t.coverage,
               totalScore := t.totalScore + calculateScore RoundPhase.Scoring 0
                 t.timeLimit t.mask.targetRects t.coverageW t.coverageH t.coverage,
               needsRedraw := true } := by
  simp only [update, finishRound, calcStateScore, hph, if_true, reduceIte]
  rw [if_pos hle]
  split <;> rfl

/-- C2.  Updates outside the Redacting phase are no-ops (so the
Redacting→Scoring transition can never double-fire); an update that
drives the timer to or below 0 clamps it to exactly 0 and moves to
Scoring; and in the scenario `timer = timeLimit = 30` with `dt = 1` per
update and no "done" activation, the phase is still `Redacting` after
every tick before the 30th, becomes `Scoring` exactly at the 30th tick,
the timer is then exactly 0, `roundScore` has been added to `totalScore`
once, and all later ticks leave the state untouched. -/
theorem update_timer_transition_once (s : GState)
    (hph : s.phase = RoundPhase.Redacting) (htimer : s.timer = 30) :
    (∀ (dt : ℚ) (t : GState), t.phase ≠ RoundPhase.Redacting → update dt t = t) ∧
    (∀ (dt : ℚ) (t : GState), t.phase = RoundPhase.Redacting → t.timer - dt ≤ 0 →
        (update dt t).phase = RoundPhase.Scoring ∧ (update dt t).timer = 0) ∧
    (∀ k : ℕ, ((update 1)^[k] s).phase =
        if k < 30 then RoundPhase.Redacting else RoundPhase.Scoring) ∧
    ((update 1)^[30] s).timer = 0 ∧
    ((update 1)^[30] s).totalScore = s.totalScore + ((update 1)^[30] s).roundScore ∧
    (∀ k : ℕ, 30 ≤ k → (update 1)^[k] s = (update 1)^[30] s) := by
  have habs : ∀ (dt : ℚ) (t : GState), t.phase ≠ RoundPhase.Redacting →
      update dt t = t := update_of_not_redacting
  have hclamp : ∀ (dt : ℚ) (t : GState), t.phase = RoundPhase.Redacting →
      t.timer - dt ≤ 0 →
      (update dt t).phase = RoundPhase.Scoring ∧ (update dt t).timer = 0 := by
    intro dt t hph' hle
    simp only [update, finishRound, calcStateScore, hph', if_true, reduceIte]
    rw [if_pos hle]
    split
    · exact ⟨rfl, rfl⟩
    · exact ⟨rfl, rfl⟩
  have hmid : ∀ k : ℕ, 1 ≤ k → k ≤ 29 →
      (update 1)^[k] s = { s with timer := 30 - (k : ℚ), needsRedraw := true } := by
    intro k hk1 hk29
    induction k with
    | zero => omega
    | succ n ih =>
        rcases Nat.eq_or_lt_of_le hk1 with h1 | h1
        · have hn : n = 0 := by omega
          subst hn
          rw [Function.iterate_one]
          rw [update_one_tick s hph (by rw [htimer]; norm_num)
            (by rw [htimer]; norm_num)]
          congr 1
          rw [htimer]
          norm_num
        · have hn1 : 1 ≤ n := by omega
          have hn29 : n ≤ 29 := by omega
          rw [Function.iterate_succ_apply', ih hn1 hn29]
          rw [update_one_tick { s with timer := 30 - (n : ℚ), needsRedraw := true }
            hph
            (by
              show (0 : ℚ) < 30 - (n : ℚ) - 1
              have : (n : ℚ) ≤ 28 := by exact_mod_cast (by omega : n ≤ 28)
              linarith)
            (by
              show ⌈(30 : ℚ) - (n : ℚ) - 1⌉ ≠ ⌈(30 : ℚ) - (n : ℚ)⌉
              have e1 : (30 : ℚ) - (n : ℚ) - 1 = ((29 - (n : ℤ) : ℤ) : ℚ) := by
                push_cast; ring
              have e2 : (30 : ℚ) - (n : ℚ) = ((30 - (n : ℤ) : ℤ) : ℚ) := by
                push_cast; ring
              rw [e1, e2, Int.ceil_intCast, Int.ceil_intCast]
              omega)]
          congr 1
          push_cast
          ring
  have h29 : (update 1)^[29] s = { s with timer := 1, needsRedraw := true } := by
    rw [hmid 29 (by omega) (by omega)]
    norm_num
  have h30 : (update 1)^[30] s =
      { s with phase := RoundPhase.Scoring, timer := 0,
               roundScore := calculateScore RoundPhase.Scoring 0 s.timeLimit
                 s.mask.targetRects s.coverageW s.coverageH s.coverage,
               totalScore := s.totalScore + calculateScore RoundPhase.Scoring 0
                 s.timeLimit s.mask.targetRects s.coverageW s.coverageH s.coverage,
               needsRedraw := true } := by
    rw [show (30 : ℕ) = 29 + 1 from rfl, Function.iterate_succ_apply', h29]
    rw [update_finish 1 { s with timer := 1, needsRedraw := true } hph (by norm_num)]
  have hfix : ∀ k : ℕ, 30 ≤ k → (update 1)^[k] s = (update 1)^[30] s := by
    intro k hk
    obtain ⟨m, rfl⟩ := Nat.exists_eq_add_of_le hk
    induction m with
    | zero => rfl
    | succ n ihm =>
        rw [show 30 + (n + 1) = (30 + n) + 1 from rfl, Function.iterate_succ_apply',
          ihm (by omega)]
        apply habs
        rw [h30]
        simp
  refine ⟨habs, hclamp, ?_, ?_, ?_, hfix⟩
  · intro k
    rcases lt_or_le k 30 with hk | hk
    · rw [if_pos hk]
      rcases Nat.eq_zero_or_pos k with h0 | h1
      · subst h0; simpa using hph
      · rw [hmid k h1 (by omega)]
        exact hph
    · rw [if_neg (by omega), hfix k hk, h30]
  · rw [h30]
  · rw [h30]

/-- Witness for C2 at a concrete state. -/
theorem update_timer_transition_once_witness :
    (timerWitnessState.phase = RoundPhase.Redacting ∧
        timerWitnessState.timer = 30) ∧
      (∀ k : ℕ, ((update 1)^[k] timerWitnessState).phase =
          if k < 30 then RoundPhase.Redacting else RoundPhase.Scoring) ∧
      ((update 1)^[30] timerWitnessState).timer = 0 :=
  ⟨⟨rfl, rfl⟩,
    (update_timer_transition_once timerWitnessState rfl rfl).2.2.1,
    (update_timer_transition_once timerWitnessState rfl rfl).2.2.2.1⟩

/-! ## C10: totalScore accounting -/

/-- The clamp at the end of `calculateScore` makes every round score
non-negative. -/
theorem calculateScore_nonneg (phase : RoundPhase) (timer tl : ℚ)
    (rects : List MaskRect) (w h : ℕ) (cov : ℤ → ℤ → Bool) :
    0 ≤ calculateScore phase timer tl rects w h cov :=
  le_max_left 0 _

theorem step_totalScore_reset (e : GEvent) (s : GState)
    (h : sessionReset e s) : (step e s).1.totalScore = 0 := by
  cases e with
  | reset => rfl
  | update dt => exact h.elim
  | pointerMove p => exact h.elim
  | pointerUp => exact h.elim
  | pointerDown p =>
      obtain ⟨hph, hcont, hexit⟩ := h
      show (onPointerDown p s).1.totalScore = 0
      unfold onPointerDown
      rw [hph]
      simp [hcont, hexit, exitGame]

theorem totalScore_redraw_if (c : Prop) [Decidable c] (t : GState) :
    (if c then { t with needsRedraw := true } else t).totalScore = t.totalScore := by
  split <;> rfl

theorem update_nofinish (dt : ℚ) (t : GState)
    (hph : t.phase = RoundPhase.Redacting) (hgt : ¬(t.timer - dt ≤ 0)) :
    (update dt t).totalScore = t.totalScore := by
  simp only [update, hph, if_true, reduceIte]
  rw [if_neg hgt]
  split <;> rfl

theorem finishRound_totalScore (s : GState) :
    (finishRound s).totalScore =
      s.totalScore + calculateScore RoundPhase.Scoring s.timer s.timeLimit
        s.mask.targetRects s.coverageW s.coverageH s.coverage := rfl

theorem step_totalScore_noreset (e : GEvent) (s : GState)
    (h : ¬sessionReset e s) :
    (step e s).1.totalScore =
      s.totalScore + (if firesFinish e s then finishScore e s else 0) := by
  cases e with
  | reset => exact absurd trivial h
  | pointerUp =>
      rw [if_neg (fun hc => hc.elim)]
      simp [step, onPointerUp]
  | pointerMove p =>
      show (onPointerMove p s).totalScore = _
      rw [if_neg (fun hc => hc.elim)]
      unfold onPointerMove
      split
      · unfold addStroke
        split <;> simp
      · simp
  | update dt =>
      show (update dt s).totalScore = _
      by_cases hph : s.phase = RoundPhase.Redacting
      · by_cases hto : s.timer - dt ≤ 0
        · rw [if_pos (show firesFinish (GEvent.update dt) s from ⟨hph, hto⟩)]
          rw [update_finish dt s hph hto]
          rfl
        · rw [if_neg (show ¬firesFinish (GEvent.update dt) s from
            fun hc => hto hc.2)]
          rw [update_nofinish dt s hph hto]
          simp
      · rw [if_neg (show ¬firesFinish (GEvent.update dt) s from
          fun hc => hph hc.1)]
        rw [update_of_not_redacting dt s hph]
        simp
  | pointerDown p =>
      show (onPointerDown p s).1.totalScore = _
      unfold onPointerDown
      cases hph : s.phase with
      | Prompt =>
          rw [if_neg (show ¬firesFinish (GEvent.pointerDown p) s from fun hc => by
            have h1 : s.phase = RoundPhase.Redacting := hc.1
            rw [hph] at h1
            exact absurd h1 (by simp))]
          dsimp only
          split
          · simp [startRedaction]
          · simp
      | Redacting =>
          dsimp only
          by_cases hb : hitBtn p s.doneButton = true
          · rw [if_pos (show firesFinish (GEvent.pointerDown p) s from ⟨hph, hb⟩)]
            simp only [hb, if_true, reduceIte]
            rw [finishRound_totalScore]
            rfl
          · rw [if_neg (show ¬firesFinish (GEvent.pointerDown p) s from
              fun hc => hb hc.2)]
            simp only [eq_false_of_ne_true hb, if_false, Bool.false_eq_true]
            unfold startStroke
            split <;> simp
      | Scoring =>
          rw [if_neg (show ¬firesFinish (GEvent.pointerDown p) s from fun hc => by
            have h1 : s.phase = RoundPhase.Redacting := hc.1
            rw [hph] at h1
            exact absurd h1 (by simp))]
          dsimp only
          by_cases hc : hitBtn p s.continueButton = true
          · simp only [hc, if_true, reduceIte]
            simp [loadNextMask, loadDocument]
          · simp only [eq_false_of_ne_true hc, if_false, Bool.false_eq_true, reduceIte]
            have hexit : hitBtn p s.exitButton = false := by
              rcases Bool.eq_false_or_eq_true (hitBtn p s.exitButton) with he | he
              · exact absurd ⟨hph, eq_false_of_ne_true hc, he⟩ h
              · exact he
            simp [hexit]

/-- C10.  `calculateScore` is never negative; every host call either
zeroes `totalScore` (exactly the `reset` entry point and `exitGame`) or
leaves it no smaller; and along any trace of host calls, `totalScore`
equals the sum of the (non-negative) round scores `finishRound` completed
since the last session reset. -/
theorem totalScore_accounting :
    (∀ (phase : RoundPhase) (timer tl : ℚ) (rects : List MaskRect) (w h : ℕ)
        (cov : ℤ → ℤ → Bool), 0 ≤ calculateScore phase timer tl rects w h cov) ∧
    (∀ (e : GEvent) (s : GState),
        (sessionReset e s → (step e s).1.totalScore = 0) ∧
        (¬sessionReset e s → s.totalScore ≤ (step e s).1.totalScore)) ∧
    (∀ (es : List GEvent) (s : GState) (acc : List ℤ),
        s.totalScore = acc.sum →
        (runCollect es s acc).1.totalScore = (runCollect es s acc).2.sum) ∧
    (∀ (es : List GEvent) (s : GState) (acc : List ℤ),
        (∀ x ∈ acc, 0 ≤ x) → ∀ x ∈ (runCollect es s acc).2, 0 ≤ x) := by
  have hnn : ∀ (e : GEvent) (s : GState), 0 ≤ finishScore e s := by
    intro e s
    cases e <;> exact calculateScore_nonneg _ _ _ _ _ _ _
  refine ⟨calculateScore_nonneg, ?_, ?_, ?_⟩
  · intro e s
    refine ⟨step_totalScore_reset e s, ?_⟩
    intro h
    rw [step_totalScore_noreset e s h]
    split
    · exact le_add_of_nonneg_right (hnn e s)
    · simp
  · intro es
    induction es with
    | nil => intro s acc h; exact h
    | cons e es ih =>
        intro s acc h
        show (runCollect es (step e s).1 _).1.totalScore = _
        apply ih
        by_cases hr : sessionReset e s
        · rw [if_pos hr, step_totalScore_reset e s hr]
          rfl
        · rw [if_neg hr, step_totalScore_noreset e s hr]
          rw [List.sum_append, h]
          split
          · simp
          · simp
  · intro es
    induction es with
    | nil => intro s acc h; exact h
    | cons e es ih =>
        intro s acc h
        show ∀ x ∈ (runCollect es (step e s).1 _).2, 0 ≤ x
        apply ih
        intro x hx
        by_cases hr : sessionReset e s
        · rw [if_pos hr] at hx
          exact absurd hx (List.not_mem_nil x)
        · rw [if_neg hr] at hx
          rcases List.mem_append.mp hx with hx | hx
          · exact h x hx
          · split at hx
            · rcases List.mem_singleton.mp hx with rfl
              exact hnn e s
            · exact absurd hx (List.not_mem_nil x)

/-- Witness for C10: one update that ends the round; the resulting
`totalScore` equals the sum of the collected round scores. -/
theorem totalScore_accounting_witness :
    accountWitnessState.totalScore = ([] : List ℤ).sum ∧
      (runCollect [GEvent.update 1] accountWitnessState []).1.totalScore =
        (runCollect [GEvent.update 1] accountWitnessState []).2.sum :=
  ⟨rfl, totalScore_accounting.2.2.1 [GEvent.update 1] accountWitnessState [] rfl⟩

/-! ## C7: mask sequencing and the Fisher–Yates reshuffle -/

namespace GameScene4

variable {α : Type _}

theorem listSwap_length (l : List α) (i j : ℕ) :
    (listSwap l i j).length = l.length := by
  unfold listSwap
  split
  · simp
  · rfl

theorem listSwap_getElem?_ne (l : List α) (i j k : ℕ) (hki : k ≠ i) (hkj : k ≠ j) :
    (listSwap l i j)[k]? = l[k]? := by
  unfold listSwap
  split
  · rw [List.getElem?_set_ne (Ne.symm hkj), List.getElem?_set_ne (Ne.symm hki)]
  · rfl

theorem listSwap_getElem?_fst (l : List α) (i j : ℕ) (hi : i < l.length)
    (hj : j < l.length) : (listSwap l i j)[i]? = l[j]? := by
  unfold listSwap
  rw [List.getElem?_eq_getElem hi, List.getElem?_eq_getElem hj]
  show ((l.set i l[j]).set j l[i])[i]? = some l[j]
  by_cases hij : i = j
  · subst hij
    rw [List.set_set]
    rw [List.getElem?_set_eq_of_lt _ (by simpa using hi)]
  · rw [List.getElem?_set_ne (show j ≠ i from fun h => hij h.symm)]
    rw [List.getElem?_set_eq_of_lt _ hi]

theorem listSwap_getElem?_snd (l : List α) (i j : ℕ) (hi : i < l.length)
    (hj : j < l.length) : (listSwap l i j)[j]? = l[i]? := by
  unfold listSwap
  rw [List.getElem?_eq_getElem hi, List.getElem?_eq_getElem hj]
  show ((l.set i l[j]).set j l[i])[j]? = some l[i]
  rw [List.getElem?_set_eq_of_lt _ (by simpa using hj)]

theorem set_getElem_self (l : List α) (i : ℕ) (h : i < l.length) :
    l.set i l[i] = l := by
  apply List.ext_getElem?
  intro k
  by_cases hk : k = i
  · subst hk
    rw [List.getElem?_set_eq_of_lt _ h, List.getElem?_eq_getElem h]
  · rw [List.getElem?_set_ne (Ne.symm hk)]

theorem listSwap_comm (l : List α) (i j : ℕ) : listSwap l i j = listSwap l j i := by
  unfold listSwap
  by_cases hi : i < l.length
  · by_cases hj : j < l.length
    · rw [List.getElem?_eq_getElem hi, List.getElem?_eq_getElem hj]
      show (l.set i l[j]).set j l[i] = (l.set j l[i]).set i l[j]
      by_cases hij : i = j
      · subst hij
        rfl
      · exact List.set_comm _ _ _ hij
    · rw [List.getElem?_eq_none (le_of_not_lt hj)]
      cases hi' : l[i]? <;> rfl
  · rw [List.getElem?_eq_none (le_of_not_lt hi)]
    cases hj' : l[j]? <;> rfl

theorem swap_append_perm (A B C : List α) (x y : α) :
    List.Perm (A ++ y :: (B ++ x :: C)) (A ++ x :: (B ++ y :: C)) :=
  List.Perm.append_left A
    ((List.perm_middle.cons y).trans
      ((List.Perm.swap x y (B ++ C)).trans ((List.perm_middle.symm).cons x)))

theorem set_at_append (A R : List α) (x b : α) :
    (A ++ x :: R).set A.length b = A ++ b :: R := by
  rw [List.set_append_right _ _ (le_refl A.length)]
  simp

theorem listSwap_perm_lt (l : List α) (i j : ℕ) (hij : i < j) (hj : j < l.length) :
    List.Perm (listSwap l i j) l := by
  have hi : i < l.length := lt_trans hij hj
  obtain ⟨x, hx⟩ : ∃ x, l[i]? = some x := ⟨_, List.getElem?_eq_getElem hi⟩
  obtain ⟨y, hy⟩ : ∃ y, l[j]? = some y := ⟨_, List.getElem?_eq_getElem hj⟩
  have hxv : l[i] = x := by
    rw [List.getElem?_eq_getElem hi] at hx
    exact Option.some.inj hx
  have hyv : l[j] = y := by
    rw [List.getElem?_eq_getElem hj] at hy
    exact Option.some.inj hy
  have hswap : listSwap l i j = (l.set i y).set j x := by
    unfold listSwap
    rw [hx, hy]
  have hdd : (l.drop (i + 1)).drop (j - i - 1) = l.drop j := by
    simp only [List.drop_drop]
    congr 1
    omega
  have hdec : l = l.take i ++ x ::
      ((l.drop (i + 1)).take (j - i - 1) ++ y :: l.drop (j + 1)) := by
    conv_lhs => rw [← List.take_append_drop i l, List.drop_eq_getElem_cons hi]
    rw [hxv]
    conv_lhs => rw [← List.take_append_drop (j - i - 1) (l.drop (i + 1))]
    rw [hdd, List.drop_eq_getElem_cons hj, hyv]
  set A := l.take i with hA
  set B := (l.drop (i + 1)).take (j - i - 1) with hB
  set C := l.drop (j + 1) with hC
  have hAlen : A.length = i := by
    rw [hA, List.length_take]
    omega
  have hBlen : B.length = j - i - 1 := by
    rw [hB, List.length_take, List.length_drop]
    omega
  have step1 : l.set i y = A ++ y :: (B ++ y :: C) := by
    calc l.set i y = (A ++ x :: (B ++ y :: C)).set i y := by rw [← hdec]
      _ = (A ++ x :: (B ++ y :: C)).set A.length y := by rw [hAlen]
      _ = A ++ y :: (B ++ y :: C) := set_at_append _ _ _ _
  have hre : A ++ y :: (B ++ y :: C) = (A ++ y :: B) ++ (y :: C) := by
    rw [List.append_assoc, List.cons_append]
  have hlen2 : (A ++ y :: B).length = j := by
    rw [List.length_append, List.length_cons, hAlen, hBlen]
    omega
  have step2 : (A ++ y :: (B ++ y :: C)).set j x = (A ++ y :: B) ++ x :: C := by
    rw [hre]
    calc ((A ++ y :: B) ++ y :: C).set j x
        = ((A ++ y :: B) ++ y :: C).set (A ++ y :: B).length x := by rw [hlen2]
      _ = (A ++ y :: B) ++ x :: C := set_at_append _ _ _ _
  rw [hswap, step1, step2]
  conv_rhs => rw [hdec]
  rw [List.append_assoc, List.cons_append]
  exact swap_append_perm A B C x y

theorem listSwap_perm (l : List α) (i j : ℕ) : List.Perm (listSwap l i j) l := by
  by_cases hi : i < l.length
  · by_cases hj : j < l.length
    · rcases lt_trichotomy i j with hlt | heq | hgt
      · exact listSwap_perm_lt l i j hlt hj
      · subst heq
        unfold listSwap
        rw [List.getElem?_eq_getElem hi]
        show List.Perm ((l.set i l[i]).set i l[i]) l
        rw [List.set_set, set_getElem_self l i hi]
      · rw [listSwap_comm]
        exact listSwap_perm_lt l j i hgt hi
    · unfold listSwap
      rw [List.getElem?_eq_none (le_of_not_lt hj)]
      cases hi' : l[i]? <;> exact List.Perm.refl l
  · unfold listSwap
    rw [List.getElem?_eq_none (le_of_not_lt hi)]

theorem fyGo_length (l : List α) (i : ℕ) (js : List ℕ) :
    (fyGo l i js).length = l.length := by
  induction js generalizing l i with
  | nil => cases i <;> rfl
  | cons j js ih =>
      cases i with
      | zero => rfl
      | succ n =>
          show (fyGo (listSwap l (n + 1) j) n js).length = l.length
          rw [ih, listSwap_length]

theorem fyGo_perm (l : List α) (i : ℕ) (js : List ℕ) :
    List.Perm (fyGo l i js) l := by
  induction js generalizing l i with
  | nil => cases i <;> exact List.Perm.refl l
  | cons j js ih =>
      cases i with
      | zero => exact List.Perm.refl l
      | succ n => exact (ih _ _).trans (listSwap_perm l (n + 1) j)

theorem fyGo_getElem?_of_gt (l : List α) (i : ℕ) (js : List ℕ) (k : ℕ)
    (hik : i < k) (hv : ChoicesLe i js) :
    (fyGo l i js)[k]? = l[k]? := by
  induction js generalizing l i with
  | nil => cases i <;> rfl
  | cons j js ih =>
      cases i with
      | zero => rfl
      | succ n =>
          obtain ⟨hj, hrest⟩ := hv
          have hrest' : ChoicesLe n js := hrest
          show (fyGo (listSwap l (n + 1) j) n js)[k]? = l[k]?
          rw [ih _ _ (by omega) hrest']
          exact listSwap_getElem?_ne l (n + 1) j k (by omega) (by omega)

theorem listSwap_append (A B : List α) (i j : ℕ) (hi : i < A.length)
    (hj : j < A.length) : listSwap (A ++ B) i j = listSwap A i j ++ B := by
  unfold listSwap
  rw [List.getElem?_append_left hi, List.getElem?_append_left hj]
  rw [List.getElem?_eq_getElem hi, List.getElem?_eq_getElem hj]
  show ((A ++ B).set i A[j]).set j A[i] = (A.set i A[j]).set j A[i] ++ B
  rw [List.set_append_left _ _ hi, List.set_append_left _ _ (by simpa using hj)]

theorem fyGo_append (i : ℕ) (js : List ℕ) (A B : List α) (h : i + 1 ≤ A.length)
    (hv : ChoicesLe i js) : fyGo (A ++ B) i js = fyGo A i js ++ B := by
  induction js generalizing A i with
  | nil => cases i <;> rfl
  | cons j js ih =>
      cases i with
      | zero => rfl
      | succ n =>
          obtain ⟨hj, hrest⟩ := hv
          have hrest' : ChoicesLe n js := hrest
          show fyGo (listSwap (A ++ B) (n + 1) j) n js =
            fyGo (listSwap A (n + 1) j) n js ++ B
          rw [listSwap_append A B (n + 1) j (by omega) (by omega)]
          exact ih n (listSwap A (n + 1) j) (by rw [listSwap_length]; omega) hrest'

theorem shuffleMasks_length (l : List α) (js : List ℕ) :
    (shuffleMasks l js).length = l.length := fyGo_length l _ js

theorem shuffleMasks_perm (l : List α) (js : List ℕ) :
    List.Perm (shuffleMasks l js) l := fyGo_perm l _ js

theorem shuffleMasks_last (l : List α) (m : ℕ) (hlen : l.length = m + 2)
    (j : ℕ) (rest : List ℕ) (hj : j ≤ m + 1) (hrest : ChoicesLe m rest) :
    (shuffleMasks l (j :: rest))[m + 1]? = l[j]? := by
  unfold shuffleMasks
  rw [hlen]
  show (fyGo (listSwap l (m + 1) j) m rest)[m + 1]? = l[j]?
  rw [fyGo_getElem?_of_gt _ m rest (m + 1) (by omega) hrest]
  exact listSwap_getElem?_fst l (m + 1) j (by omega) (by omega)

theorem eq_take_append_last (l : List α) (m : ℕ) (h : l.length = m + 2) :
    ∃ x, l = l.take (m + 1) ++ [x] ∧ l[m + 1]? = some x := by
  have hlt : m + 1 < l.length := by omega
  refine ⟨l[m + 1], ?_, List.getElem?_eq_getElem hlt⟩
  conv_lhs => rw [← List.take_append_drop (m + 1) l]
  congr 1
  rw [List.drop_eq_getElem_cons hlt]
  congr 1
  rw [← h]
  exact List.drop_length l

/-- For a duplicate-free list, every reordering is produced by exactly one
valid draw sequence: the Fisher–Yates reshuffle is a bijection between
draw sequences and permutations of the list (hence uniform draws give a
uniform permutation). -/
theorem shuffleMasks_bij {α : Type _} [DecidableEq α] :
    ∀ (n : ℕ) (l : List α), l.length = n → l.Nodup →
      ∀ l', List.Perm l' l →
      ∃! js, ValidChoices n js ∧ shuffleMasks l js = l' := by
  intro n
  induction n using Nat.strong_induction_on with
  | _ n ih =>
    intro l hlen hnd l' hperm
    cases n with
    | zero =>
        have hl : l = [] := List.length_eq_zero.mp hlen
        subst hl
        have hl' : l' = [] := List.Perm.eq_nil hperm
        subst hl'
        refine ⟨[], ⟨⟨rfl, trivial⟩, rfl⟩, ?_⟩
        rintro js ⟨⟨hjl, -⟩, -⟩
        exact List.length_eq_zero.mp hjl
    | succ n1 =>
        cases n1 with
        | zero =>
            obtain ⟨a, hl⟩ := List.length_eq_one.mp hlen
            subst hl
            have hl' : l' = [a] := List.perm_singleton.mp hperm
            subst hl'
            refine ⟨[], ⟨⟨rfl, trivial⟩, rfl⟩, ?_⟩
            rintro js ⟨⟨hjl, -⟩, -⟩
            exact List.length_eq_zero.mp hjl
        | succ m =>
            have hl' : l'.length = m + 2 := by rw [hperm.length_eq, hlen]
            obtain ⟨x, hl'dec, hx'⟩ := eq_take_append_last l' m hl'
            have hxl' : x ∈ l' := List.getElem?_mem hx'
            have hxl : x ∈ l := hperm.subset hxl'
            have hj0lt : l.indexOf x < l.length := List.indexOf_lt_length.mpr hxl
            have hj0get : l[l.indexOf x]? = some x := List.getElem?_indexOf hxl
            have hj0le : l.indexOf x ≤ m + 1 := by omega
            have hl2len : (listSwap l (m + 1) (l.indexOf x)).length = m + 2 := by
              rw [listSwap_length, hlen]
            have hl2last : (listSwap l (m + 1) (l.indexOf x))[m + 1]? = some x := by
              rw [listSwap_getElem?_fst l (m + 1) (l.indexOf x) (by omega) hj0lt]
              exact hj0get
            obtain ⟨x₂, hl2dec, hx₂⟩ := eq_take_append_last _ m hl2len
            have hx₂x : x₂ = x := Option.some.inj (hx₂.symm.trans hl2last)
            rw [hx₂x] at hl2dec
            have hl2perm : List.Perm (listSwap l (m + 1) (l.indexOf x)) l :=
              listSwap_perm l (m + 1) (l.indexOf x)
            have hA2len : ((listSwap l (m + 1) (l.indexOf x)).take (m + 1)).length
                = m + 1 := by
              rw [List.length_take]
              omega
            have hA2nd : ((listSwap l (m + 1) (l.indexOf x)).take (m + 1)).Nodup :=
              (hl2perm.symm.nodup hnd).sublist (List.take_sublist _ _)
            have hpre : List.Perm (l'.take (m + 1))
                ((listSwap l (m + 1) (l.indexOf x)).take (m + 1)) := by
              have h1 : List.Perm (l'.take (m + 1) ++ [x])
                  ((listSwap l (m + 1) (l.indexOf x)).take (m + 1) ++ [x]) := by
                rw [← hl'dec, ← hl2dec]
                exact hperm.trans hl2perm.symm
              have h2 : List.Perm (x :: l'.take (m + 1))
                  (x :: (listSwap l (m + 1) (l.indexOf x)).take (m + 1)) :=
                (List.perm_append_comm.trans h1).trans List.perm_append_comm
              exact h2.cons_inv
            obtain ⟨rest, ⟨⟨hrl, hrc⟩, hrs⟩, hru⟩ :=
              ih (m + 1) (by omega) _ hA2len hA2nd (l'.take (m + 1)) hpre
            have hrl' : rest.length = m := hrl
            have hrc' : ChoicesLe m rest := hrc
            have hshuf : ∀ rest' : List ℕ, ChoicesLe m rest' →
                shuffleMasks l (l.indexOf x :: rest') =
                  shuffleMasks ((listSwap l (m + 1) (l.indexOf x)).take (m + 1))
                    rest' ++ [x] := by
              intro rest' hc'
              unfold shuffleMasks
              rw [hlen, hA2len]
              show fyGo (listSwap l (m + 1) (l.indexOf x)) m rest' =
                fyGo ((listSwap l (m + 1) (l.indexOf x)).take (m + 1)) m rest' ++ [x]
              conv_lhs => rw [hl2dec]
              exact fyGo_append m rest' _ [x] (by rw [hA2len]) hc'
            refine ⟨l.indexOf x :: rest, ⟨⟨?_, hj0le, hrc'⟩, ?_⟩, ?_⟩
            · simp [hrl']
            · rw [hshuf rest hrc', hrs, ← hl'dec]
            · rintro js' ⟨⟨hjl', hjc'⟩, hjs'⟩
              cases js' with
              | nil => exact absurd hjl' (by simp)
              | cons j' rest' =>
                  obtain ⟨hj'le, hrest'⟩ := hjc'
                  have hlast' : l'[m + 1]? = l[j']? := by
                    rw [← hjs']
                    exact shuffleMasks_last l m hlen j' rest' hj'le hrest'
                  have hj'get : l[j']? = some x := hlast'.symm.trans hx'
                  have hj' : j' = l.indexOf x := by
                    have hj'lt : j' < l.length := by
                      rcases List.getElem?_eq_some.mp hj'get with ⟨hh, -⟩
                      exact hh
                    exact List.getElem?_inj hj'lt hnd
                      (hj'get.trans hj0get.symm)
                  subst hj'
                  have hcanc : shuffleMasks
                      ((listSwap l (m + 1) (l.indexOf x)).take (m + 1)) rest' =
                      l'.take (m + 1) := by
                    have hh : shuffleMasks
                        ((listSwap l (m + 1) (l.indexOf x)).take (m + 1)) rest'
                          ++ [x] = l'.take (m + 1) ++ [x] := by
                      rw [← hshuf rest' hrest', hjs']
                      exact hl'dec
                    exact List.append_cancel_right hh
                  have : rest' = rest := by
                    apply hru
                    exact ⟨⟨by simpa using hjl', hrest'⟩, hcanc⟩
                  rw [this]

theorem maskAdvance_iterate (masks : List Redaction.RedactionMask) (js : List ℕ) :
    ∀ k, k < masks.length → (maskAdvance js)^[k] (masks, 0) = (masks, k) := by
  intro k
  induction k with
  | zero => intro _; rfl
  | succ n ihn =>
      intro hk
      rw [Function.iterate_succ_apply', ihn (by omega)]
      simp only [maskAdvance]
      rw [if_neg (show ¬masks.length ≤ n + 1 by omega)]

theorem maskAdvance_wrap (masks : List Redaction.RedactionMask) (js : List ℕ) :
    (maskAdvance js)^[masks.length] (masks, 0) = (shuffleMasks masks js, 0) := by
  cases masks with
  | nil => rfl
  | cons m ms =>
      rw [show (m :: ms).length = ms.length + 1 from rfl, Function.iterate_succ_apply',
        maskAdvance_iterate (m :: ms) js ms.length (by simp)]
      simp only [maskAdvance]
      rw [if_pos (show (m :: ms).length ≤ ms.length + 1 by simp)]

end GameScene4

/-- C7.  For the GameScene4 sequencing: (i) during one pass the state after
`k` completed rounds is `(masks, k)` and the mask presented in round `k`
is `masks[k]`; (ii) with distinct masks, no mask is presented twice within
one pass; (iii) the pass-ending advance wraps the index to 0 and replaces
the sequence by its Fisher–Yates reshuffle; (iv) the reshuffle is a
permutation of the masks; and (v) for distinct masks every permutation is
produced by exactly one valid draw sequence — uniform draws therefore give
a uniform random permutation. -/
theorem mask_sequencing_spec :
    (∀ (masks : List RedactionMask) (js : List ℕ) (k : ℕ), k < masks.length →
        (GameScene4.maskAdvance js)^[k] (masks, 0) = (masks, k) ∧
        GameScene4.presentedMask ((GameScene4.maskAdvance js)^[k] (masks, 0)) =
          masks[k]?) ∧
    (∀ (masks : List RedactionMask) (js : List ℕ), masks.Nodup →
        ∀ k₁ k₂, k₁ < masks.length → k₂ < masks.length →
        GameScene4.presentedMask ((GameScene4.maskAdvance js)^[k₁] (masks, 0)) =
          GameScene4.presentedMask ((GameScene4.maskAdvance js)^[k₂] (masks, 0)) →
        k₁ = k₂) ∧
    (∀ (masks : List RedactionMask) (js : List ℕ),
        (GameScene4.maskAdvance js)^[masks.length] (masks, 0) =
          (GameScene4.shuffleMasks masks js, 0)) ∧
    (∀ (masks : List RedactionMask) (js : List ℕ),
        List.Perm (GameScene4.shuffleMasks masks js) masks) ∧
    (∀ masks : List RedactionMask, masks.Nodup → ∀ l', List.Perm l' masks →
        ∃! js, GameScene4.ValidChoices masks.length js ∧
          GameScene4.shuffleMasks masks js = l') := by
  have hpres : ∀ (masks : List RedactionMask) (js : List ℕ) (k : ℕ),
      k < masks.length →
      GameScene4.presentedMask ((GameScene4.maskAdvance js)^[k] (masks, 0)) =
        masks[k]? := by
    intro masks js k hk
    rw [GameScene4.maskAdvance_iterate masks js k hk]
    rfl
  refine ⟨fun masks js k hk => ⟨GameScene4.maskAdvance_iterate masks js k hk,
      hpres masks js k hk⟩, ?_, GameScene4.maskAdvance_wrap,
    fun masks js => GameScene4.shuffleMasks_perm masks js,
    fun masks hnd l' hperm =>
      GameScene4.shuffleMasks_bij masks.length masks rfl hnd l' hperm⟩
  intro masks js hnd k₁ k₂ h₁ h₂ heq
  rw [hpres masks js k₁ h₁, hpres masks js k₂ h₂] at heq
  exact List.getElem?_inj h₁ hnd heq

/-- Witness for C7 with two distinct masks and the draw sequence `[1]`. -/
theorem mask_sequencing_spec_witness :
    ([(⟨"a", 8, 8, []⟩ : RedactionMask), ⟨"b", 9, 9, []⟩].Nodup ∧
        List.Perm [(⟨"b", 9, 9, []⟩ : RedactionMask), ⟨"a", 8, 8, []⟩]
          [(⟨"a", 8, 8, []⟩ : RedactionMask), ⟨"b", 9, 9, []⟩]) ∧
      ((GameScene4.maskAdvance [1])^[2]
          ([(⟨"a", 8, 8, []⟩ : RedactionMask), ⟨"b", 9, 9, []⟩], 0) =
        (GameScene4.shuffleMasks
          [(⟨"a", 8, 8, []⟩ : RedactionMask), ⟨"b", 9, 9, []⟩] [1], 0)) ∧
      (∃! js, GameScene4.ValidChoices
          ([(⟨"a", 8, 8, []⟩ : RedactionMask), ⟨"b", 9, 9, []⟩] :
            List RedactionMask).length js ∧
        GameScene4.shuffleMasks
          [(⟨"a", 8, 8, []⟩ : RedactionMask), ⟨"b", 9, 9, []⟩] js =
          [(⟨"b", 9, 9, []⟩ : RedactionMask), ⟨"a", 8, 8, []⟩]) :=
  ⟨⟨by decide, List.Perm.swap _ _ _⟩,
    mask_sequencing_spec.2.2.1
      [(⟨"a", 8, 8, []⟩ : RedactionMask), ⟨"b", 9, 9, []⟩] [1],
    mask_sequencing_spec.2.2.2.2
      [(⟨"a", 8, 8, []⟩ : RedactionMask), ⟨"b", 9, 9, []⟩] (by decide)
      [(⟨"b", 9, 9, []⟩ : RedactionMask), ⟨"a", 8, 8, []⟩]
      (List.Perm.swap _ _ _)⟩

end Redaction
